import Mathlib

/-!
Verification development for the `cse` slave-interface and error-classification
headers (`include/cse/slave.hpp`, `include/cse/exception.hpp`).

The development shallowly embeds:
  * the error-code model (`cse::errc`, `cse::make_error_code`, `cse::error`);
  * the slave lifecycle state machine and the `do_step` protocol;
  * the bulk variable get/set operations.

`slave.hpp` declares a pure interface; where a behaviour is fixed only by the
contract documentation, the corresponding definition is modelled from the spec
and says so in its doc comment.
-/

namespace Cse

/-- Error conditions specific to this library, from `enum class errc` in
`exception.hpp`.  `success = 0`, and the remaining enumerators take the
consecutive values `1..5` as in C++. -/
inductive errc
  | success
  | bad_file
  | unsupported_feature
  | dl_load_error
  | model_error
  | zip_error
deriving DecidableEq, Repr

/-- The underlying integral value of an `errc` enumerator, following the C++
rule that enumerators without initializers count up from the previous one. -/
def errc.val : errc → Nat
  | .success => 0
  | .bad_file => 1
  | .unsupported_feature => 2
  | .dl_load_error => 3
  | .model_error => 4
  | .zip_error => 5

/-- Modelled from the spec: the identity of an `std::error_category`.  The
repository implements `cse::error_category()` outside the headers in `src/`;
the spec describes it as a process-wide singleton identity distinguishing this
domain from generic system-originated categories, so two category identities
suffice for the embedding. -/
inductive ErrCat
  | cse
  | generic
deriving DecidableEq, Repr

/-- Modelled from the spec: the canonical human-readable text the category
produces for each `errc` value (`canonical_message` in the spec; the concrete
strings follow the doc comments on `enum class errc`).  The implementation
lives outside `src/`; only totality and fixedness matter to the claims. -/
def canonicalMessage : errc → String
  | .success => "Success"
  | .bad_file => "An input file is corrupted or invalid"
  | .unsupported_feature => "The requested feature is unsupported"
  | .dl_load_error => "Error loading dynamic library"
  | .model_error => "The model reported an error"
  | .zip_error => "ZIP file error"

/-- An `std::error_code`: a pair of a category identity and an integral value.
Two codes are equal iff both fields match (`std::error_code::operator==`). -/
structure ErrorCode where
  cat : ErrCat
  val : Nat
deriving DecidableEq, Repr

/-- Modelled from the spec: the message an `std::error_code` renders, which for
codes of this domain is the category's canonical text for the condition.  The
category's `message()` implementation lives outside `src/`. -/
def ErrorCode.message (c : ErrorCode) : String :=
  match c.cat with
  | .cse =>
    match c.val with
    | 0 => canonicalMessage .success
    | 1 => canonicalMessage .bad_file
    | 2 => canonicalMessage .unsupported_feature
    | 3 => canonicalMessage .dl_load_error
    | 4 => canonicalMessage .model_error
    | _ => canonicalMessage .zip_error
  | .generic => "Generic system error"

/-- `cse::make_error_code(errc)` from `exception.hpp`: constructs an error code
for a library-specific error condition, carrying the library's category and the
enumerator's integral value. -/
def make_error_code (e : errc) : ErrorCode :=
  { cat := ErrCat.cse, val := e.val }

/-- The exception type `cse::error` from `exception.hpp`: it stores the
`std::runtime_error` message (returned by `what()`) and the error code
(returned by `code()`).  Both are fixed at construction. -/
structure error where
  what : String
  code : ErrorCode
deriving DecidableEq, Repr

/-- The one-argument constructor `error(std::error_code ec)`: the stored
message is `ec.message()`. -/
def error.mkCode (ec : ErrorCode) : error :=
  { what := ec.message, code := ec }

/-- The two-argument constructor `error(std::error_code ec, const std::string
msg)`: the stored message is `ec.message() + ": " + msg`. -/
def error.mkCodeMsg (ec : ErrorCode) (msg : String) : error :=
  { what := ec.message ++ ": " ++ msg, code := ec }

/-- `small` occurs as a contiguous substring of `big` (on character lists). -/
def strContains (big small : String) : Prop :=
  ∃ pre post, big.data = pre ++ small.data ++ post

/-- Modelled from the spec: the per-kind variable store of a slave instance.
`slave.hpp` only declares the eight bulk get/set operations; per the spec each
kind (real, integer, boolean, string) has an independent set of valid variable
indices, each holding a current value.  `α` is the kind's value type. -/
structure KindStore (α : Type) where
  validIdx : List Nat
  value : Nat → α

/-- Modelled from the spec: `set_<kind>_variables`.  Applies each
(index, value) pair in order; an entry with an invalid index is silently
ignored; the call returns `true` iff every entry was accepted.  Both sequences
must have equal length (precondition of the C++ interface); a length mismatch
yields `false` with the state left as is. -/
def setVars {α : Type} (s : KindStore α) : List Nat → List α → Bool × KindStore α
  | [], [] => (true, s)
  | i :: is, v :: vs =>
    if i ∈ s.validIdx then
      setVars { s with value := fun j => if j = i then v else s.value j } is vs
    else
      (false, (setVars s is vs).2)
  | _, _ => (false, s)

/-- Modelled from the spec: `get_<kind>_variables`.  A pure read filling the
output with the values of the requested indices, in the same order. -/
def getVars {α : Type} (s : KindStore α) (idxs : List Nat) : List α :=
  idxs.map s.value

/-- Modelled from the spec: the get call as a state transformer, to express
that a `get_<kind>_variables` call leaves the store untouched. -/
def getVarsCall {α : Type} (s : KindStore α) (idxs : List Nat) :
    List α × KindStore α :=
  (getVars s idxs, s)

/-- The lifecycle phases of a slave instance, from the call-sequence contract
documented on `class slave_instance` and the spec's state list:
`unconfigured → initializing → stepping → terminated`, plus the absorbing
`broken` phase entered when a method throws. -/
inductive Phase
  | unconfigured
  | initializing
  | stepping
  | terminated
  | broken
deriving DecidableEq, Repr

/-- The spec's opaque, totally ordered simulation time (`time_point`, and
likewise `time_duration`), embedded as `ℤ`: all the contract uses is the
total order and `time_point + time_duration`. -/
abbrev time_point := Int

/-- Elapsed simulation time spans; see `time_point`. -/
abbrev time_duration := Int

/-- Modelled from the spec: the lifecycle-relevant state of one slave
instance.  `stopTime = none` embeds the `eternity` sentinel (no defined stop
time).  `lastStep` records the previous `do_step` call's `(currentT, deltaT)`
and whether it returned `true`. -/
structure SlaveState where
  phase : Phase
  startTime : time_point
  stopTime : Option time_point
  lastStep : Option (time_point × time_duration × Bool)
deriving DecidableEq, Repr

/-- The backend's outcome of one `do_step` call: the model calculations
succeed (`do_step` returns `true`), fail recoverably (`do_step` returns
`false`), or hit an unrecoverable problem (the call throws). -/
inductive StepOutcome
  | ok
  | retry
  | fatal
deriving DecidableEq, Repr

/-- Modelled from the spec: validity of a `do_step(currentT, deltaT)` call.
The slave must be in the stepping phase; `currentT >= startTime`; when a stop
time is defined, `currentT + deltaT <= stopTime`; and temporal continuity
holds: after a successful step ending at `t`, the next call starts at `t`,
while after a recoverable failure the same `currentT` is retried with a
strictly smaller `deltaT`. -/
def doStepOk (s : SlaveState) (t dt : time_point) : Bool :=
  decide (s.phase = Phase.stepping) && decide (0 < dt) &&
    decide (s.startTime ≤ t) &&
    (match s.stopTime with
      | none => true
      | some stop => decide (t + dt ≤ stop)) &&
    (match s.lastStep with
      | none => true
      | some (pt, pd, succeeded) =>
        if succeeded then decide (t = pt + pd)
        else decide (t = pt) && decide (dt < pd))

/-- The result of one contract call, as seen by the orchestrator: a normal
return carrying the boolean result (`true` for void operations), a thrown
exception, or a rejected contract-violating call. -/
inductive CallResult
  | ret (b : Bool)
  | threw
  | rejected
deriving DecidableEq, Repr

/-- One contract call together with the backend's behaviour on it: lifecycle
transitions, `do_step` with its outcome, and a variable or query call with a
flag saying whether the backend throws from it. -/
inductive SlaveOp
  | setupOp (startT : time_point) (stopT : Option time_point) (throws : Bool)
  | startSimulationOp (throws : Bool)
  | doStepOp (t dt : time_point) (outcome : StepOutcome)
  | endSimulationOp (throws : Bool)
  | varOp (throws : Bool)
  | modelDescriptionOp (throws : Bool)
deriving DecidableEq, Repr

/-- Modelled from the spec: the lifecycle transition function.  `setup` is
valid only from `unconfigured` and enters `initializing`; `start_simulation`
is valid only from `initializing` and enters `stepping`; `do_step` is valid
as per `doStepOk`; `end_simulation` is valid only from `stepping` and enters
`terminated`; variable calls are valid while `initializing` or `stepping`;
`model_description` is a query valid in any live phase.  A throwing call
leaves the slave `broken`; a contract-violating call (including any call on a
broken slave) is rejected and performs nothing. -/
def applyOp (s : SlaveState) : SlaveOp → CallResult × SlaveState
  | .setupOp startT stopT throws =>
    if s.phase = Phase.unconfigured then
      if throws then (.threw, { s with phase := Phase.broken })
      else
        (.ret true,
          { phase := Phase.initializing, startTime := startT,
            stopTime := stopT, lastStep := none })
    else (.rejected, s)
  | .startSimulationOp throws =>
    if s.phase = Phase.initializing then
      if throws then (.threw, { s with phase := Phase.broken })
      else (.ret true, { s with phase := Phase.stepping })
    else (.rejected, s)
  | .doStepOp t dt outcome =>
    if doStepOk s t dt then
      match outcome with
      | .ok => (.ret true, { s with lastStep := some (t, dt, true) })
      | .retry => (.ret false, { s with lastStep := some (t, dt, false) })
      | .fatal => (.threw, { s with phase := Phase.broken })
    else (.rejected, s)
  | .endSimulationOp throws =>
    if s.phase = Phase.stepping then
      if throws then (.threw, { s with phase := Phase.broken })
      else (.ret true, { s with phase := Phase.terminated })
    else (.rejected, s)
  | .varOp throws =>
    if s.phase = Phase.initializing ∨ s.phase = Phase.stepping then
      if throws then (.threw, { s with phase := Phase.broken })
      else (.ret true, s)
    else (.rejected, s)
  | .modelDescriptionOp throws =>
    if s.phase ≠ Phase.broken then
      if throws then (.threw, { s with phase := Phase.broken })
      else (.ret true, s)
    else (.rejected, s)

/-- Runs a sequence of calls, threading the state. -/
def applyOps (s : SlaveState) : List SlaveOp → SlaveState
  | [] => s
  | op :: ops => applyOps (applyOp s op).2 ops

/-- For codes of this library's category, the rendered message is the
canonical text of the generating condition. -/
theorem message_make_error_code (e : errc) :
    (make_error_code e).message = canonicalMessage e := by
  cases e <;> rfl

/-- C8: error codes built by `make_error_code` compare equal iff the
conditions coincide; code equality is componentwise (category identity and
integral value); and a domain code never equals a generic system code of the
same integral value. -/
theorem make_error_code_eq_iff :
    (∀ e1 e2 : errc, make_error_code e1 = make_error_code e2 ↔ e1 = e2) ∧
    (∀ c1 c2 : ErrorCode, c1 = c2 ↔ c1.cat = c2.cat ∧ c1.val = c2.val) ∧
    (∀ e : errc,
      make_error_code e ≠ ErrorCode.mk ErrCat.generic (make_error_code e).val) := by
  refine ⟨?_, ?_, ?_⟩
  · intro e1 e2
    constructor
    · intro h
      cases e1 <;> cases e2 <;> simp_all [make_error_code, errc.val]
    · intro h
      rw [h]
  · intro c1 c2
    constructor
    · intro h
      rw [h]
      exact ⟨rfl, rfl⟩
    · intro ⟨h1, h2⟩
      cases c1
      cases c2
      simp_all
  · intro e h
    have hcat : (make_error_code e).cat = ErrCat.generic := by rw [h]
    simp [make_error_code] at hcat

/-- C9: the message of an exception built from a domain code contains the
category's canonical text for the condition; with extra context the message is
exactly the canonical text followed by `": "` and the context, hence contains
both; and the carried code is the one given at construction. -/
theorem error_message_contains :
    (∀ e : errc,
      (error.mkCode (make_error_code e)).what = canonicalMessage e ∧
      strContains (error.mkCode (make_error_code e)).what (canonicalMessage e) ∧
      (error.mkCode (make_error_code e)).code = make_error_code e) ∧
    (∀ e : errc, ∀ ctx : String,
      (error.mkCodeMsg (make_error_code e) ctx).what
        = canonicalMessage e ++ ": " ++ ctx ∧
      strContains (error.mkCodeMsg (make_error_code e) ctx).what
        (canonicalMessage e) ∧
      strContains (error.mkCodeMsg (make_error_code e) ctx).what ctx ∧
      (error.mkCodeMsg (make_error_code e) ctx).code = make_error_code e) := by
  constructor
  · intro e
    refine ⟨message_make_error_code e, ?_, rfl⟩
    exact ⟨[], [], by simp [error.mkCode, message_make_error_code e]⟩
  · intro e ctx
    have hwhat : (error.mkCodeMsg (make_error_code e) ctx).what
        = canonicalMessage e ++ ": " ++ ctx := by
      simp [error.mkCodeMsg, message_make_error_code e]
    refine ⟨hwhat, ?_, ?_, rfl⟩
    · refine ⟨[], (": " : String).data ++ ctx.data, ?_⟩
      simp [hwhat, String.data_append]
    · refine ⟨(canonicalMessage e).data ++ (": " : String).data, [], ?_⟩
      simp [hwhat, String.data_append]

/-- C10: the two-argument constructor yields exactly
`ec.message() + ": " + msg`; with an empty extra message it still ends in the
`": "` separator, and its message differs from the one-argument form, whose
message is exactly `ec.message()`. -/
theorem error_two_arg_message :
    ∀ ec : ErrorCode,
      (∀ msg : String,
        (error.mkCodeMsg ec msg).what = ec.message ++ ": " ++ msg) ∧
      (error.mkCode ec).what = ec.message ∧
      (error.mkCodeMsg ec "").what = ec.message ++ ": " ∧
      (error.mkCodeMsg ec "").what ≠ (error.mkCode ec).what := by
  intro ec
  refine ⟨fun msg => rfl, rfl, by simp [error.mkCodeMsg], ?_⟩
  intro h
  have hlen : (error.mkCodeMsg ec "").what.length
      = (error.mkCode ec).what.length := by rw [h]
  simp [error.mkCodeMsg, error.mkCode, String.length_append] at hlen
  exact absurd hlen (by decide)

/-- `set_<kind>_variables` never changes which indices are valid. -/
theorem setVars_validIdx {α : Type} (idxs : List Nat) (vals : List α)
    (s : KindStore α) :
    ((setVars s idxs vals).2).validIdx = s.validIdx := by
  induction idxs generalizing vals s with
  | nil => cases vals <;> simp [setVars]
  | cons i is ih =>
    cases vals with
    | nil => simp [setVars]
    | cons v vs =>
      by_cases hi : i ∈ s.validIdx
      · simp only [setVars, if_pos hi]
        exact ih vs _
      · simp only [setVars, if_neg hi]
        exact ih vs s

/-- A `set_<kind>_variables` call does not touch the value of an index that is
not among the written indices. -/
theorem setVars_value_notMem {α : Type} (idxs : List Nat) (vals : List α)
    (s : KindStore α) (j : Nat) (hj : j ∉ idxs) :
    ((setVars s idxs vals).2).value j = s.value j := by
  induction idxs generalizing vals s with
  | nil => cases vals <;> simp [setVars]
  | cons i is ih =>
    cases vals with
    | nil => simp [setVars]
    | cons v vs =>
      have hji : j ≠ i := fun h => hj (h ▸ List.mem_cons_self i is)
      have hjs : j ∉ is := fun h => hj (List.mem_cons_of_mem i h)
      by_cases hi : i ∈ s.validIdx
      · simp only [setVars, if_pos hi]
        rw [ih vs _ hjs]
        simp [hji]
      · simp only [setVars, if_neg hi]
        exact ih vs s hjs

/-- `set_<kind>_variables` returns `true` exactly when the sequences have
equal length and every written index is valid. -/
theorem setVars_fst_true_iff {α : Type} (idxs : List Nat) (vals : List α)
    (s : KindStore α) :
    (setVars s idxs vals).1 = true ↔
      idxs.length = vals.length ∧ ∀ i ∈ idxs, i ∈ s.validIdx := by
  induction idxs generalizing vals s with
  | nil => cases vals <;> simp [setVars]
  | cons i is ih =>
    cases vals with
    | nil => simp [setVars]
    | cons v vs =>
      by_cases hi : i ∈ s.validIdx
      · simp only [setVars, if_pos hi]
        rw [ih vs]
        simp [List.forall_mem_cons, hi]
      · simp [setVars, if_neg hi, List.forall_mem_cons, hi]

/-- After a bulk write, a valid index whose last occurrence in the index
sequence is at position `k` holds the `k`-th written value. -/
theorem setVars_value_lastOcc {α : Type} (idxs : List Nat) (vals : List α)
    (s : KindStore α) (k : Nat) (hk : k < idxs.length)
    (hlen : idxs.length = vals.length)
    (hvalid : idxs[k] ∈ s.validIdx)
    (hlast : idxs[k] ∉ idxs.drop (k + 1)) :
    ((setVars s idxs vals).2).value idxs[k] = vals[k] := by
  induction idxs generalizing vals s k with
  | nil => exact absurd hk (by simp)
  | cons i is ih =>
    cases vals with
    | nil => simp at hlen
    | cons v vs =>
      cases k with
      | zero =>
        have hi : i ∈ s.validIdx := by simpa using hvalid
        simp only [List.getElem_cons_zero]
        simp only [setVars, if_pos hi]
        rw [setVars_value_notMem is vs _ i (by simpa using hlast)]
        simp
      | succ k' =>
        have hk' : k' < is.length := by simpa using hk
        by_cases hi : i ∈ s.validIdx
        · simp only [List.getElem_cons_succ]
          simp only [setVars, if_pos hi]
          exact ih vs _ k' hk' (by simpa using hlen)
            (by simpa using hvalid) (by simpa using hlast)
        · simp only [List.getElem_cons_succ]
          simp only [setVars, if_neg hi]
          exact ih vs s k' hk' (by simpa using hlen)
            (by simpa using hvalid) (by simpa using hlast)

/-- C5 (amended): for any kind, if the index sequence has no duplicates and
`set_<kind>_variables(idxs, vals)` returns `true`, then an immediately
following `get_<kind>_variables(idxs)` yields exactly `vals`. -/
theorem set_get_roundtrip {α : Type} (idxs : List Nat) (vals : List α)
    (s : KindStore α) (hnd : idxs.Nodup)
    (hok : (setVars s idxs vals).1 = true) :
    getVars (setVars s idxs vals).2 idxs = vals := by
  induction idxs generalizing vals s with
  | nil =>
    cases vals with
    | nil => rfl
    | cons v vs => simp [setVars] at hok
  | cons i is ih =>
    cases vals with
    | nil => simp [setVars] at hok
    | cons v vs =>
      by_cases hi : i ∈ s.validIdx
      · have hok' : (setVars
            { s with value := fun j => if j = i then v else s.value j }
            is vs).1 = true := by
          simpa [setVars, if_pos hi] using hok
        have hnotin : i ∉ is := (List.nodup_cons.mp hnd).1
        have tail := ih vs _ (List.nodup_cons.mp hnd).2 hok'
        simp only [setVars, if_pos hi, getVars, List.map_cons]
        rw [setVars_value_notMem is vs _ i hnotin]
        rw [show (List.map _ is = vs) from tail]
        simp
      · simp [setVars, if_neg hi] at hok

/-- C5 counterexample: with duplicate indices in the request, the round-trip
fails even though the set call returns `true` — writing `[1, 2]` to indices
`[0, 0]` succeeds, but reading `[0, 0]` back yields `[2, 2]`. -/
theorem set_get_roundtrip_dup_counterexample :
    (setVars (KindStore.mk [0] (fun _ => (0 : Int))) [0, 0] [1, 2]).1 = true ∧
    getVars (setVars (KindStore.mk [0] (fun _ => (0 : Int))) [0, 0] [1, 2]).2
      [0, 0] ≠ [1, 2] := by
  constructor
  · rfl
  · intro h
    have h1 : (1 : Int) = 2 := by
      have h0 := congrArg (fun l => l.getD 0 (0 : Int)) h
      simpa [getVars, setVars] using h0.symm
    exact absurd h1 (by decide)

/-- C5 witness: a concrete duplicate-free round-trip through the theorem. -/
theorem set_get_roundtrip_witness :
    getVars
      (setVars (KindStore.mk [0, 1] (fun _ => (0 : Int))) [0, 1] [5, 7]).2
      [0, 1] = [5, 7] :=
  set_get_roundtrip [0, 1] [5, 7] (KindStore.mk [0, 1] (fun _ => (0 : Int)))
    (by decide) (by decide)

/-- C6: a `get_<kind>_variables` call is a pure read: it leaves the store
unchanged, returns one value per requested index, pairs the `k`-th returned
value with the `k`-th requested index, and reads equal values for duplicate
indices. -/
theorem get_vars_pure_ordered {α : Type} (s : KindStore α) (idxs : List Nat) :
    (getVarsCall s idxs).2 = s ∧
    (getVars s idxs).length = idxs.length ∧
    (∀ k : Nat, (getVars s idxs)[k]? = idxs[k]?.map s.value) ∧
    (∀ j k : Nat, idxs[j]? = idxs[k]? →
      (getVars s idxs)[j]? = (getVars s idxs)[k]?) := by
  refine ⟨rfl, by simp [getVars], ?_, ?_⟩
  · intro k
    simp [getVars]
  · intro j k h
    simp [getVars, h]

/-- C6 witness: reading `[0, 1, 0]` from a concrete store is pure and the
duplicated index `0` reads the same value at positions `0` and `2`. -/
theorem get_vars_pure_ordered_witness :
    (getVarsCall (KindStore.mk [0, 1] (fun j => (j : Int))) [0, 1, 0]).2
      = KindStore.mk [0, 1] (fun j => (j : Int)) ∧
    (getVars (KindStore.mk [0, 1] (fun j => (j : Int))) [0, 1, 0])[0]?
      = (getVars (KindStore.mk [0, 1] (fun j => (j : Int))) [0, 1, 0])[2]? :=
  ⟨(get_vars_pure_ordered (KindStore.mk [0, 1] (fun j => (j : Int)))
      [0, 1, 0]).1,
   (get_vars_pure_ordered (KindStore.mk [0, 1] (fun j => (j : Int)))
      [0, 1, 0]).2.2.2 0 2 (by decide)⟩

/-- C7: when some entry of a `set_<kind>_variables` call has an invalid index,
the call returns `false`; the invalid entries are ignored, yet every accepted
entry takes effect: a following get on an accepted index (at its last
occurrence) reflects the written value. -/
theorem set_vars_partial_apply {α : Type} (s : KindStore α)
    (idxs : List Nat) (vals : List α) (hlen : idxs.length = vals.length)
    (j : Nat) (hj : j < idxs.length) (hbad : idxs[j] ∉ s.validIdx) :
    (setVars s idxs vals).1 = false ∧
    ∀ k (hk : k < idxs.length), idxs[k] ∈ s.validIdx →
      idxs[k] ∉ idxs.drop (k + 1) →
      getVars (setVars s idxs vals).2 [idxs[k]] = [vals[k]] := by
  constructor
  · cases hf : (setVars s idxs vals).1 with
    | false => rfl
    | true =>
      obtain ⟨-, hall⟩ := (setVars_fst_true_iff idxs vals s).mp hf
      exact absurd (hall _ (List.getElem_mem hj)) hbad
  · intro k hk hv hl
    simp only [getVars, List.map_cons, List.map_nil]
    rw [setVars_value_lastOcc idxs vals s k hk hlen hv hl]

/-- Unfolding of the `do_step` call-validity check into its documented
conditions: stepping phase, positive duration, the time bounds from `setup`,
and temporal continuity with the previous call. -/
theorem doStepOk_iff (s : SlaveState) (t : time_point) (dt : time_duration) :
    doStepOk s t dt = true ↔
      s.phase = Phase.stepping ∧ 0 < dt ∧ s.startTime ≤ t ∧
      (∀ stop, s.stopTime = some stop → t + dt ≤ stop) ∧
      (∀ pt pd b, s.lastStep = some (pt, pd, b) →
        (b = true → t = pt + pd) ∧ (b = false → t = pt ∧ dt < pd)) := by
  obtain ⟨ph, st, stop, last⟩ := s
  cases stop with
  | none =>
    cases last with
    | none => simp [doStepOk, and_assoc]
    | some trip =>
      obtain ⟨pt, pd, b⟩ := trip
      cases b <;> simp [doStepOk, and_assoc]
  | some q =>
    cases last with
    | none => simp [doStepOk, and_assoc]
    | some trip =>
      obtain ⟨pt, pd, b⟩ := trip
      cases b <;> simp [doStepOk, and_assoc]

/-- C1: a valid `do_step` call that returns `false` leaves the slave in the
stepping phase, changing nothing but the record of the last call, and a
subsequent `do_step` at the same `currentT` with a strictly smaller positive
`deltaT` is again a valid call, which the slave accepts rather than
rejects. -/
theorem do_step_false_retry (s : SlaveState) (t : time_point)
    (dt : time_duration) (hok : doStepOk s t dt = true) :
    applyOp s (SlaveOp.doStepOp t dt StepOutcome.retry)
      = (CallResult.ret false, { s with lastStep := some (t, dt, false) }) ∧
    ({ s with lastStep := some (t, dt, false) } : SlaveState).phase
      = Phase.stepping ∧
    ∀ dt' : time_duration, 0 < dt' → dt' < dt →
      doStepOk { s with lastStep := some (t, dt, false) } t dt' = true ∧
      ∀ o : StepOutcome,
        (applyOp { s with lastStep := some (t, dt, false) }
          (SlaveOp.doStepOp t dt' o)).1 ≠ CallResult.rejected := by
  obtain ⟨hph, hdt, hst, hstop, hlast⟩ := (doStepOk_iff s t dt).mp hok
  refine ⟨by simp [applyOp, hok], hph, ?_⟩
  intro dt' h1 h2
  have hok' : doStepOk { s with lastStep := some (t, dt, false) } t dt'
      = true := by
    apply (doStepOk_iff _ t dt').mpr
    refine ⟨hph, h1, hst, ?_, ?_⟩
    · intro stop h
      have := hstop stop (by simpa using h)
      linarith
    · intro pt pd b h
      simp only [Option.some.injEq, Prod.mk.injEq] at h
      obtain ⟨hpt, hpd, hb⟩ := h
      subst hpt hpd
      cases b with
      | false => exact ⟨fun h => by simp at h, fun _ => ⟨rfl, h2⟩⟩
      | true => exact absurd hb.symm (by simp)
  refine ⟨hok', ?_⟩
  intro o
  cases o <;> simp [applyOp, hok']

/-- C1 witness: at a concrete stepping state with bounds `[0, 10]`, the call
`do_step(2, 2)` returning `false` leaves the slave stepping and the retry
`do_step(2, 1)` is valid and not rejected. -/
theorem do_step_false_retry_witness :
    applyOp ⟨Phase.stepping, 0, some 10, none⟩
        (SlaveOp.doStepOp 2 2 StepOutcome.retry)
      = (CallResult.ret false,
         ⟨Phase.stepping, 0, some 10, some (2, 2, false)⟩) ∧
    doStepOk ⟨Phase.stepping, 0, some 10, some (2, 2, false)⟩ 2 1 = true :=
  ⟨(do_step_false_retry ⟨Phase.stepping, 0, some 10, none⟩ 2 2 (by decide)).1,
   ((do_step_false_retry ⟨Phase.stepping, 0, some 10, none⟩ 2 2
      (by decide)).2.2 1 (by decide) (by decide)).1⟩

/-- C2: a `do_step` call violating the time bounds established at setup —
`currentT` before the start time, or `currentT + deltaT` past a finite stop
time — is rejected by the slave and performs no state change. -/
theorem do_step_out_of_bounds_rejected (s : SlaveState) (t : time_point)
    (dt : time_duration) (o : StepOutcome)
    (hviol : t < s.startTime ∨
      ∃ stop, s.stopTime = some stop ∧ stop < t + dt) :
    applyOp s (SlaveOp.doStepOp t dt o) = (CallResult.rejected, s) := by
  have hnot : ¬doStepOk s t dt = true := by
    intro hok
    obtain ⟨hph, hdt, hst, hstop, hlast⟩ := (doStepOk_iff s t dt).mp hok
    rcases hviol with h | ⟨stop, hs, hb⟩
    · linarith
    · have := hstop stop hs
      linarith
  simp only [applyOp]
  rw [if_neg hnot]

/-- C2 witness: after `setup(startTime = 0, stopTime = 10)`,
`start_simulation`, and the steps `do_step(0, 1)` and `do_step(1, 1)`, the
call `do_step(9, 2)` (since `9 + 2 = 11 > 10`) is rejected. -/
theorem do_step_out_of_bounds_rejected_witness :
    applyOp
      (applyOps ⟨Phase.unconfigured, 0, none, none⟩
        [SlaveOp.setupOp 0 (some 10) false,
         SlaveOp.startSimulationOp false,
         SlaveOp.doStepOp 0 1 StepOutcome.ok,
         SlaveOp.doStepOp 1 1 StepOutcome.ok])
      (SlaveOp.doStepOp 9 2 StepOutcome.ok)
      = (CallResult.rejected,
         applyOps ⟨Phase.unconfigured, 0, none, none⟩
          [SlaveOp.setupOp 0 (some 10) false,
           SlaveOp.startSimulationOp false,
           SlaveOp.doStepOp 0 1 StepOutcome.ok,
           SlaveOp.doStepOp 1 1 StepOutcome.ok]) :=
  do_step_out_of_bounds_rejected _ 9 2 StepOutcome.ok
    (Or.inr ⟨10, by decide, by decide⟩)

/-- C3: a throwing method call leaves the slave broken; every call on a
broken slave is rejected without effect; and the broken phase is absorbing
under any sequence of calls. -/
theorem broken_absorbing :
    (∀ (s : SlaveState) (op : SlaveOp),
      (applyOp s op).1 = CallResult.threw →
        (applyOp s op).2.phase = Phase.broken) ∧
    (∀ (s : SlaveState) (op : SlaveOp),
      s.phase = Phase.broken → applyOp s op = (CallResult.rejected, s)) ∧
    (∀ (s : SlaveState) (ops : List SlaveOp),
      s.phase = Phase.broken → (applyOps s ops).phase = Phase.broken) := by
  have h2 : ∀ (s : SlaveState) (op : SlaveOp),
      s.phase = Phase.broken → applyOp s op = (CallResult.rejected, s) := by
    intro s op hb
    cases op with
    | setupOp a b c => simp [applyOp, hb]
    | startSimulationOp c => simp [applyOp, hb]
    | doStepOp t dt o =>
      have hno : doStepOk s t dt = false := by
        simp [doStepOk, hb]
      simp [applyOp, hno]
    | endSimulationOp c => simp [applyOp, hb]
    | varOp c => simp [applyOp, hb]
    | modelDescriptionOp c => simp [applyOp, hb]
  refine ⟨?_, h2, ?_⟩
  · intro s op h
    cases op with
    | setupOp a b c =>
      by_cases hc : s.phase = Phase.unconfigured
      · cases c with
        | false => simp [applyOp, hc] at h
        | true => simp [applyOp, hc]
      · simp [applyOp, hc] at h
    | startSimulationOp c =>
      by_cases hc : s.phase = Phase.initializing
      · cases c with
        | false => simp [applyOp, hc] at h
        | true => simp [applyOp, hc]
      · simp [applyOp, hc] at h
    | doStepOp t dt o =>
      by_cases hc : doStepOk s t dt = true
      · cases o with
        | ok => simp [applyOp, hc] at h
        | retry => simp [applyOp, hc] at h
        | fatal => simp [applyOp, hc]
      · simp [applyOp, hc] at h
    | endSimulationOp c =>
      by_cases hc : s.phase = Phase.stepping
      · cases c with
        | false => simp [applyOp, hc] at h
        | true => simp [applyOp, hc]
      · simp [applyOp, hc] at h
    | varOp c =>
      by_cases hc : s.phase = Phase.initializing ∨ s.phase = Phase.stepping
      · cases c with
        | false => simp [applyOp, hc] at h
        | true => simp [applyOp, hc]
      · simp [applyOp, hc] at h
    | modelDescriptionOp c =>
      by_cases hc : s.phase ≠ Phase.broken
      · cases c with
        | false => simp [applyOp, hc] at h
        | true => simp [applyOp, hc]
      · simp [applyOp, hc] at h
  · intro s ops hb
    induction ops generalizing s with
    | nil => exact hb
    | cons op ops ih =>
      simp only [applyOps]
      rw [h2 s op hb]
      exact ih s hb

/-- C3 witness: a fatal `do_step` leaves a concrete slave broken; a variable
call on a broken slave is rejected; and a concrete call sequence starting
from broken stays broken. -/
theorem broken_absorbing_witness :
    (applyOp ⟨Phase.stepping, 0, some 10, none⟩
        (SlaveOp.doStepOp 0 1 StepOutcome.fatal)).2.phase = Phase.broken ∧
    applyOp ⟨Phase.broken, 0, some 10, none⟩ (SlaveOp.varOp false)
      = (CallResult.rejected, ⟨Phase.broken, 0, some 10, none⟩) ∧
    (applyOps ⟨Phase.broken, 0, some 10, none⟩
        [SlaveOp.setupOp 0 none false, SlaveOp.startSimulationOp false,
         SlaveOp.doStepOp 1 1 StepOutcome.ok]).phase = Phase.broken :=
  ⟨broken_absorbing.1 ⟨Phase.stepping, 0, some 10, none⟩
      (SlaveOp.doStepOp 0 1 StepOutcome.fatal) (by decide),
   broken_absorbing.2.1 ⟨Phase.broken, 0, some 10, none⟩
      (SlaveOp.varOp false) rfl,
   broken_absorbing.2.2 ⟨Phase.broken, 0, some 10, none⟩
      [SlaveOp.setupOp 0 none false, SlaveOp.startSimulationOp false,
       SlaveOp.doStepOp 1 1 StepOutcome.ok] rfl⟩

/-- C4 counterexample: after a `do_step(2, 2)` that returns `false`, the
retry `do_step(2, 1)` is a valid, accepted call, yet its `currentT` differs
from the previous call's `currentT + deltaT` — so not every non-first call
continues exactly where the previous call would have ended. -/
theorem do_step_continuity_counterexample :
    (applyOp ⟨Phase.stepping, 0, some 10, none⟩
        (SlaveOp.doStepOp 2 2 StepOutcome.retry)).1 = CallResult.ret false ∧
    (applyOp (applyOp ⟨Phase.stepping, 0, some 10, none⟩
          (SlaveOp.doStepOp 2 2 StepOutcome.retry)).2
        (SlaveOp.doStepOp 2 1 StepOutcome.ok)).1 = CallResult.ret true ∧
    (2 : time_point) ≠ 2 + 2 := by
  decide

/-- C4 (amended): in a valid `do_step` sequence, a call that is not the first
has `currentT` equal to the previous call's `currentT + deltaT` whenever the
previous call succeeded; after a previous call that returned `false`, it
instead retries the same `currentT` with a strictly smaller `deltaT`. -/
theorem do_step_continuity (s : SlaveState) (t : time_point)
    (dt : time_duration) (pt : time_point) (pd : time_duration) (b : Bool)
    (hlast : s.lastStep = some (pt, pd, b))
    (hok : doStepOk s t dt = true) :
    (b = true → t = pt + pd) ∧ (b = false → t = pt ∧ dt < pd) := by
  obtain ⟨-, -, -, -, hl⟩ := (doStepOk_iff s t dt).mp hok
  exact hl pt pd b hlast

/-- C4 witness: in a concrete state whose previous call stepped `[1, 2)`
successfully, the accepted call `do_step(2, 1)` satisfies `2 = 1 + 1`. -/
theorem do_step_continuity_witness :
    doStepOk ⟨Phase.stepping, 0, some 10, some (1, 1, true)⟩ 2 1 = true ∧
    (2 : time_point) = 1 + 1 :=
  ⟨by decide,
   (do_step_continuity ⟨Phase.stepping, 0, some 10, some (1, 1, true)⟩ 2 1 1 1
      true rfl (by decide)).1 rfl⟩

/-- C7 witness: writing `[10, 20]` to indices `[0, 5]` on a store whose only
valid index is `0` returns `false`, and a following get on index `0` reads
the accepted value `10`. -/
theorem set_vars_partial_apply_witness :
    (setVars (KindStore.mk [0] (fun _ => (0 : Int))) [0, 5] [10, 20]).1
        = false ∧
    getVars (setVars (KindStore.mk [0] (fun _ => (0 : Int))) [0, 5]
        [10, 20]).2 [0] = [10] :=
  ⟨(set_vars_partial_apply (KindStore.mk [0] (fun _ => (0 : Int))) [0, 5]
      [10, 20] (by decide) 1 (by decide) (by decide)).1,
   (set_vars_partial_apply (KindStore.mk [0] (fun _ => (0 : Int))) [0, 5]
      [10, 20] (by decide) 1 (by decide) (by decide)).2 0 (by decide)
      (by decide) (by decide)⟩

end Cse
